import Mathlib

/-!
Verification of `larq_bnn.py`, a keyword-spotting training script.

The script is a linear pipeline: it reads a command list, scans a dataset
directory for `.wav` files (`load_audio_files`), aborts with a `ValueError`
when no sample is found, splits paths/labels with sklearn's
`train_test_split` (stratified, `test_size=0.2`), converts each side to
spectrograms (`paths_to_spectrograms`), builds/trains a Larq binary CNN and
saves it to `binary_kws_model.h5`.

The development below is a shallow embedding of that pipeline:
* the filesystem is a function from a path to an optional directory listing;
* audio decoding is an environment parameter mapping a path to its samples;
* the sklearn stratified split is modelled from its documented behaviour
  (`ceil(test_size*n)` test samples, largest-remainder per-class allocation,
  ties broken by smallest class index as one realization of its RNG),
  together with the `ValueError` paths of `train_test_split`,
  `_validate_shuffle_split` and `StratifiedShuffleSplit._iter_indices`
  (inconsistent lengths, empty train set, a class with fewer than two
  members, train or test draw smaller than the number of classes);
* `tf.signal.stft` is modelled from its documented framing/FFT behaviour
  (frame_length 255, frame_step 128, fft_length the enclosing power of two,
  periodic Hann window, one-sided spectrum of `fft_length/2 + 1` bins).
-/

set_option maxHeartbeats 1000000
set_option maxRecDepth 8000

namespace BinaryKWS

/-- Model of the filesystem seen by the script: `listdir p = some files` when
`p` exists and is a directory (with `files` its entries, as in `os.listdir`),
and `none` when `os.path.exists(p) and os.path.isdir(p)` is false. -/
structure FS where
  listdir : String → Option (List String)

/-- Python `s.endswith(t)`. -/
def pyEndsWith (s t : String) : Bool := t.data.isSuffixOf s.data

/-- Python `s.startswith(t)`. -/
def pyStartsWith (s t : String) : Bool := t.data.isPrefixOf s.data

/-- Python `os.path.join(a, b)` on POSIX: `b` wins when absolute, otherwise
`a` and `b` are joined with a single separator. -/
def osPathJoin (a b : String) : String :=
  if pyStartsWith b "/" then b
  else if a = "" then b
  else if pyEndsWith a "/" then a ++ b
  else a ++ "/" ++ b

/-- `DATASET_PATH` from the script. -/
def DATASET_PATH : String := "speech-commands/"

/-- The fixed path `model.save` writes to. -/
def MODEL_FILE : String := "binary_kws_model.h5"

/-- The warning printed for a command whose directory has no `.wav` file
(the source quotes the command name; quotes are elided here). -/
def emptyDirWarning (command : String) : String :=
  "Attenzione: la directory per il comando " ++ command ++ " è vuota."

/-- The warning printed for a command whose directory does not exist. -/
def missingDirWarning (command : String) : String :=
  "Attenzione: il comando " ++ command ++ " non esiste nel dataset."

/-- The `ValueError` message raised when no sample at all was found. -/
def noSamplesError : String :=
  "Nessun campione trovato. Verifica che le directory dei comandi siano corrette e contengano file .wav."

/-- `[f for f in files if f.endswith(".wav")]`. -/
def wavFiles (files : List String) : List String :=
  files.filter (fun f => pyEndsWith f ".wav")

/-- Result of `load_audio_files`, with the printed warnings made explicit. -/
structure LoadResult where
  audio_paths : List String
  labels : List Nat
  warnings : List String
deriving Repr, DecidableEq

/-- The `for label, command in enumerate(commands)` loop of
`load_audio_files`, with `label` the enumeration counter and the three lists
as accumulators appended to exactly as the Python body appends/prints. -/
def loadGo (fs : FS) (dataset_path : String) : Nat → List String → LoadResult → LoadResult
  | _, [], acc => acc
  | label, command :: rest, acc =>
    let command_path := osPathJoin dataset_path command
    match fs.listdir command_path with
    | some files =>
        let wav_files := wavFiles files
        let warn := if wav_files.length = 0 then [emptyDirWarning command] else []
        loadGo fs dataset_path (label + 1) rest
          { audio_paths := acc.audio_paths ++ wav_files.map (fun file => osPathJoin command_path file),
            labels := acc.labels ++ wav_files.map (fun _ => label),
            warnings := acc.warnings ++ warn }
    | none =>
        loadGo fs dataset_path (label + 1) rest
          { acc with warnings := acc.warnings ++ [missingDirWarning command] }

/-- `load_audio_files(commands, dataset_path)` from the script, over the
filesystem model `fs`. -/
def load_audio_files (fs : FS) (commands : List String) (dataset_path : String) : LoadResult :=
  loadGo fs dataset_path 0 commands ⟨[], [], []⟩

/-- The (path, label) pairs a single command with enumeration index `label`
contributes: one pair per `.wav` entry of its directory, and none when the
directory is missing. -/
def commandPairs (fs : FS) (dataset_path : String) (label : Nat) (command : String) :
    List (String × Nat) :=
  let command_path := osPathJoin dataset_path command
  match fs.listdir command_path with
  | some files => (wavFiles files).map (fun file => (osPathJoin command_path file, label))
  | none => []

/-- The warnings a single command causes to be printed. -/
def commandWarnings (fs : FS) (dataset_path : String) (command : String) : List String :=
  match fs.listdir (osPathJoin dataset_path command) with
  | some files => if (wavFiles files).length = 0 then [emptyDirWarning command] else []
  | none => [missingDirWarning command]

/-- Specification of the pairing `load_audio_files` produces, stated the way
the spec reads: the concatenation, over the enumerated commands, of each
command's own (joined path, index) pairs. -/
def pairedSpec (fs : FS) (commands : List String) (dataset_path : String) :
    List (String × Nat) :=
  ((commands.enumFrom 0).map (fun p => commandPairs fs dataset_path p.1 p.2)).flatten

theorem loadGo_spec (fs : FS) (dataset_path : String) (label : Nat) (cs : List String)
    (acc : LoadResult) (h : acc.audio_paths.length = acc.labels.length) :
    (loadGo fs dataset_path label cs acc).audio_paths.length =
        (loadGo fs dataset_path label cs acc).labels.length ∧
    (loadGo fs dataset_path label cs acc).audio_paths.zip
        (loadGo fs dataset_path label cs acc).labels =
      acc.audio_paths.zip acc.labels ++
        ((cs.enumFrom label).map (fun p => commandPairs fs dataset_path p.1 p.2)).flatten ∧
    (loadGo fs dataset_path label cs acc).warnings =
      acc.warnings ++ (cs.map (commandWarnings fs dataset_path)).flatten := by
  induction cs generalizing label acc with
  | nil => simp [loadGo, h]
  | cons command rest ih =>
    cases hfs : fs.listdir (osPathJoin dataset_path command) with
    | some files =>
      simp only [loadGo, hfs]
      have hlen : (acc.audio_paths ++ (wavFiles files).map
            (fun file => osPathJoin (osPathJoin dataset_path command) file)).length =
          (acc.labels ++ (wavFiles files).map (fun _ => label)).length := by
        simp [h]
      obtain ⟨ih1, ih2, ih3⟩ := ih (label + 1)
        { audio_paths := acc.audio_paths ++ (wavFiles files).map
            (fun file => osPathJoin (osPathJoin dataset_path command) file),
          labels := acc.labels ++ (wavFiles files).map (fun _ => label),
          warnings := acc.warnings ++
            if (wavFiles files).length = 0 then [emptyDirWarning command] else [] } hlen
      refine ⟨ih1, ?_, ?_⟩
      · rw [ih2]
        simp only [List.enumFrom, List.map_cons, List.flatten_cons, commandPairs, hfs]
        rw [List.zip_append (by simp [h]), List.zip_map', List.append_assoc]
      · rw [ih3]
        simp [commandWarnings, hfs, List.append_assoc]
    | none =>
      simp only [loadGo, hfs]
      obtain ⟨ih1, ih2, ih3⟩ := ih (label + 1)
        { acc with warnings := acc.warnings ++ [missingDirWarning command] } h
      refine ⟨ih1, ?_, ?_⟩
      · rw [ih2]
        simp only [List.enumFrom, List.map_cons, List.flatten_cons, commandPairs, hfs]
        simp
      · rw [ih3]
        simp [commandWarnings, hfs, List.append_assoc]

theorem load_audio_files_length_eq (fs : FS) (commands : List String) (dataset_path : String) :
    (load_audio_files fs commands dataset_path).audio_paths.length =
      (load_audio_files fs commands dataset_path).labels.length :=
  (loadGo_spec fs dataset_path 0 commands ⟨[], [], []⟩ rfl).1

theorem load_audio_files_zip_eq (fs : FS) (commands : List String) (dataset_path : String) :
    (load_audio_files fs commands dataset_path).audio_paths.zip
        (load_audio_files fs commands dataset_path).labels =
      pairedSpec fs commands dataset_path := by
  have h := (loadGo_spec fs dataset_path 0 commands ⟨[], [], []⟩ rfl).2.1
  simpa [pairedSpec, load_audio_files] using h

theorem load_audio_files_warnings_eq (fs : FS) (commands : List String) (dataset_path : String) :
    (load_audio_files fs commands dataset_path).warnings =
      (commands.map (commandWarnings fs dataset_path)).flatten := by
  have h := (loadGo_spec fs dataset_path 0 commands ⟨[], [], []⟩ rfl).2.2
  simpa [load_audio_files] using h

/-- Claim C2: `load_audio_files` pairs files with labels correctly: the two
lists it returns have equal length, and their zip is exactly the
concatenation, command by enumerated command, of one (joined path, index)
pair per `.wav` entry of that command's directory — so each `.wav` file of an
existing directory contributes exactly one entry, at the same position in
both lists, and nothing else is produced. -/
theorem C2_load_audio_files_pairing (fs : FS) (commands : List String) (dataset_path : String) :
    (load_audio_files fs commands dataset_path).audio_paths.length =
        (load_audio_files fs commands dataset_path).labels.length ∧
    (load_audio_files fs commands dataset_path).audio_paths.zip
        (load_audio_files fs commands dataset_path).labels =
      pairedSpec fs commands dataset_path :=
  ⟨load_audio_files_length_eq fs commands dataset_path,
   load_audio_files_zip_eq fs commands dataset_path⟩

theorem pyEndsWith_osPathJoin (a f t : String) (h : pyEndsWith f t = true) :
    pyEndsWith (osPathJoin a f) t = true := by
  simp only [pyEndsWith, List.isSuffixOf_iff_suffix] at h ⊢
  unfold osPathJoin
  split
  · exact h
  split
  · exact h
  split
  · exact h.trans (List.suffix_append a.data f.data)
  · exact h.trans (List.suffix_append (a.data ++ "/".data) f.data)

theorem mem_commandPairs_label (fs : FS) (dp : String) (lab : Nat) (c : String)
    (p : String × Nat) (hp : p ∈ commandPairs fs dp lab c) : p.2 = lab := by
  rcases hfs : fs.listdir (osPathJoin dp c) with _ | files
  · simp only [commandPairs, hfs, List.not_mem_nil] at hp
  · simp only [commandPairs, hfs, List.mem_map] at hp
    obtain ⟨f, _, hf⟩ := hp
    rw [← hf]

theorem mem_commandPairs_wav (fs : FS) (dp : String) (lab : Nat) (c : String)
    (p : String × Nat) (hp : p ∈ commandPairs fs dp lab c) :
    pyEndsWith p.1 ".wav" = true := by
  rcases hfs : fs.listdir (osPathJoin dp c) with _ | files
  · simp only [commandPairs, hfs, List.not_mem_nil] at hp
  · simp only [commandPairs, hfs, List.mem_map] at hp
    obtain ⟨f, hf, hfp⟩ := hp
    have hwav : pyEndsWith f ".wav" = true := (List.mem_filter.mp hf).2
    rw [← hfp]
    exact pyEndsWith_osPathJoin _ f _ hwav

theorem mem_pairedSpecFrom_label_range (fs : FS) (dp : String) (cs : List String) (n : Nat)
    (p : String × Nat)
    (hp : p ∈ ((cs.enumFrom n).map (fun q => commandPairs fs dp q.1 q.2)).flatten) :
    n ≤ p.2 ∧ p.2 < n + cs.length := by
  induction cs generalizing n with
  | nil => simp at hp
  | cons c rest ih =>
    simp only [List.enumFrom, List.map_cons, List.flatten_cons, List.mem_append] at hp
    rcases hp with hp | hp
    · have hl := mem_commandPairs_label fs dp n c p hp
      simp only [List.length_cons]
      omega
    · have := ih (n + 1) hp
      simp only [List.length_cons]
      omega

theorem pairedSpecFrom_filter (fs : FS) (dp : String) (cs : List String) (n i : Nat)
    (hi : i < cs.length) :
    (((cs.enumFrom n).map (fun q => commandPairs fs dp q.1 q.2)).flatten).filter
        (fun p => p.2 = n + i) =
      commandPairs fs dp (n + i) (cs.get ⟨i, hi⟩) := by
  induction cs generalizing n i with
  | nil => simp at hi
  | cons c rest ih =>
    simp only [List.enumFrom, List.map_cons, List.flatten_cons, List.filter_append]
    cases i with
    | zero =>
      have h1 : (commandPairs fs dp n c).filter (fun p => decide (p.2 = n + 0)) =
          commandPairs fs dp n c := by
        apply List.filter_eq_self.mpr
        intro p hp
        have := mem_commandPairs_label fs dp n c p hp
        simp [this]
      have h2 : (((rest.enumFrom (n + 1)).map
            (fun q => commandPairs fs dp q.1 q.2)).flatten).filter
            (fun p => decide (p.2 = n + 0)) = [] := by
        apply List.filter_eq_nil_iff.mpr
        intro p hp
        have := mem_pairedSpecFrom_label_range fs dp rest (n + 1) p hp
        simp only [decide_eq_true_eq]
        omega
      rw [h1, h2, List.append_nil]
      rfl
    | succ i' =>
      have h1 : (commandPairs fs dp n c).filter (fun p => decide (p.2 = n + (i' + 1))) = [] := by
        apply List.filter_eq_nil_iff.mpr
        intro p hp
        have := mem_commandPairs_label fs dp n c p hp
        simp only [decide_eq_true_eq]
        omega
      have h2 := ih (n + 1) i' (by simpa using Nat.lt_of_succ_lt_succ (by simpa using hi))
      rw [h1, List.nil_append]
      have hn : n + 1 + i' = n + (i' + 1) := by omega
      rw [hn] at h2
      exact h2

theorem load_filter_label (fs : FS) (commands : List String) (dataset_path : String)
    (i : Nat) (hi : i < commands.length) :
    ((load_audio_files fs commands dataset_path).audio_paths.zip
        (load_audio_files fs commands dataset_path).labels).filter (fun p => p.2 = i) =
      commandPairs fs dataset_path i (commands.get ⟨i, hi⟩) := by
  rw [load_audio_files_zip_eq]
  have h := pairedSpecFrom_filter fs dataset_path commands 0 i hi
  simpa [pairedSpec] using h

theorem mem_pairedSpec_prop (fs : FS) (commands : List String) (dp : String) (p : String × Nat)
    (hp : p ∈ pairedSpec fs commands dp) :
    p.2 < commands.length ∧ pyEndsWith p.1 ".wav" = true := by
  have hp' : p ∈ ((commands.enumFrom 0).map (fun q => commandPairs fs dp q.1 q.2)).flatten := by
    simpa [pairedSpec] using hp
  constructor
  · have := mem_pairedSpecFrom_label_range fs dp commands 0 p hp'
    omega
  · obtain ⟨s, hs, hps⟩ := List.mem_flatten.mp hp'
    obtain ⟨q, _, rfl⟩ := List.mem_map.mp hs
    exact mem_commandPairs_wav fs dp q.1 q.2 p hps

/-- Claim C8: invariants of `load_audio_files`: the two returned lists always
have equal length, every returned label is an enumeration index below
`len(commands)`, and every returned path ends in `.wav`. -/
theorem C8_load_invariants (fs : FS) (commands : List String) (dp : String) :
    (load_audio_files fs commands dp).audio_paths.length =
        (load_audio_files fs commands dp).labels.length ∧
    (∀ l ∈ (load_audio_files fs commands dp).labels, l < commands.length) ∧
    (∀ p ∈ (load_audio_files fs commands dp).audio_paths, pyEndsWith p ".wav" = true) := by
  have hlen := load_audio_files_length_eq fs commands dp
  have hz := load_audio_files_zip_eq fs commands dp
  refine ⟨hlen, ?_, ?_⟩
  · intro l hl
    have hmap : ((load_audio_files fs commands dp).audio_paths.zip
          (load_audio_files fs commands dp).labels).map Prod.snd =
        (load_audio_files fs commands dp).labels :=
      List.map_snd_zip _ _ (le_of_eq hlen.symm)
    rw [← hmap] at hl
    obtain ⟨p, hp, rfl⟩ := List.mem_map.mp hl
    rw [hz] at hp
    exact (mem_pairedSpec_prop fs commands dp p hp).1
  · intro q hq
    have hmap : ((load_audio_files fs commands dp).audio_paths.zip
          (load_audio_files fs commands dp).labels).map Prod.fst =
        (load_audio_files fs commands dp).audio_paths :=
      List.map_fst_zip _ _ (le_of_eq hlen)
    rw [← hmap] at hq
    obtain ⟨p, hp, rfl⟩ := List.mem_map.mp hq
    rw [hz] at hp
    exact (mem_pairedSpec_prop fs commands dp p hp).2

/-- Concrete filesystem used by witnesses: command `go` has no directory,
`stop` has a directory with no `.wav` file, `yes` has one `.wav` file and a
non-wav file. -/
def fsWitness : FS :=
  ⟨fun p =>
    if p = "speech-commands/go" then none
    else if p = "speech-commands/stop" then some ["x.txt"]
    else if p = "speech-commands/yes" then some ["a.wav", "b.txt"]
    else none⟩

/-- Concrete command list used by witnesses. -/
def commandsWitness : List String := ["go", "stop", "yes"]

/-- Witness for C8, at a filesystem with a missing directory, an empty
directory and a populated one. -/
theorem C8_load_invariants_witness :
    2 ∈ (load_audio_files fsWitness commandsWitness DATASET_PATH).labels ∧
    2 < commandsWitness.length ∧
    "speech-commands/yes/a.wav" ∈
      (load_audio_files fsWitness commandsWitness DATASET_PATH).audio_paths ∧
    pyEndsWith "speech-commands/yes/a.wav" ".wav" = true :=
  ⟨by decide,
   (C8_load_invariants fsWitness commandsWitness DATASET_PATH).2.1 2 (by decide),
   by decide,
   (C8_load_invariants fsWitness commandsWitness DATASET_PATH).2.2
     "speech-commands/yes/a.wav" (by decide)⟩

/-- Claim C6: a command whose directory is missing gets the missing-directory
warning and contributes no (path, label) pair; one whose directory has no
`.wav` file gets the empty-directory warning and contributes no pair; and for
every command `j` the pairs carrying label `j` are exactly the pairs of
command `j`'s own directory, so a missing or empty directory leaves every
other command's scan unaffected (the scan itself is a total function: a
missing or empty directory raises nothing). -/
theorem C6_missing_or_empty_dir (fs : FS) (commands : List String) (dp : String)
    (i : Nat) (hi : i < commands.length) :
    (fs.listdir (osPathJoin dp (commands.get ⟨i, hi⟩)) = none →
      missingDirWarning (commands.get ⟨i, hi⟩) ∈
        (load_audio_files fs commands dp).warnings ∧
      ((load_audio_files fs commands dp).audio_paths.zip
          (load_audio_files fs commands dp).labels).filter (fun p => p.2 = i) = []) ∧
    (∀ files, fs.listdir (osPathJoin dp (commands.get ⟨i, hi⟩)) = some files →
      wavFiles files = [] →
      emptyDirWarning (commands.get ⟨i, hi⟩) ∈
        (load_audio_files fs commands dp).warnings ∧
      ((load_audio_files fs commands dp).audio_paths.zip
          (load_audio_files fs commands dp).labels).filter (fun p => p.2 = i) = []) ∧
    (∀ j, ∀ hj : j < commands.length,
      ((load_audio_files fs commands dp).audio_paths.zip
          (load_audio_files fs commands dp).labels).filter (fun p => p.2 = j) =
        commandPairs fs dp j (commands.get ⟨j, hj⟩)) := by
  have hw := load_audio_files_warnings_eq fs commands dp
  refine ⟨?_, ?_, fun j hj => load_filter_label fs commands dp j hj⟩
  · intro hnone
    simp only [List.get_eq_getElem] at hnone
    constructor
    · rw [hw]
      refine List.mem_flatten.mpr ⟨commandWarnings fs dp (commands.get ⟨i, hi⟩),
        List.mem_map_of_mem _ (List.get_mem commands i hi), ?_⟩
      simp [commandWarnings, hnone]
    · rw [load_filter_label fs commands dp i hi]
      simp [commandPairs, hnone]
  · intro files hsome hempty
    simp only [List.get_eq_getElem] at hsome
    constructor
    · rw [hw]
      refine List.mem_flatten.mpr ⟨commandWarnings fs dp (commands.get ⟨i, hi⟩),
        List.mem_map_of_mem _ (List.get_mem commands i hi), ?_⟩
      simp [commandWarnings, hsome, hempty]
    · rw [load_filter_label fs commands dp i hi]
      simp [commandPairs, hsome, hempty]

/-- Witness for C6: on `fsWitness`, the missing command `go` (index 0) warns
and contributes nothing, the empty command `stop` (index 1) warns and
contributes nothing, and the populated command `yes` (index 2) contributes
exactly its own wav pair. -/
theorem C6_missing_or_empty_dir_witness :
    (missingDirWarning "go" ∈
        (load_audio_files fsWitness commandsWitness DATASET_PATH).warnings ∧
      ((load_audio_files fsWitness commandsWitness DATASET_PATH).audio_paths.zip
          (load_audio_files fsWitness commandsWitness DATASET_PATH).labels).filter
        (fun p => p.2 = 0) = []) ∧
    (emptyDirWarning "stop" ∈
        (load_audio_files fsWitness commandsWitness DATASET_PATH).warnings ∧
      ((load_audio_files fsWitness commandsWitness DATASET_PATH).audio_paths.zip
          (load_audio_files fsWitness commandsWitness DATASET_PATH).labels).filter
        (fun p => p.2 = 1) = []) ∧
    ((load_audio_files fsWitness commandsWitness DATASET_PATH).audio_paths.zip
          (load_audio_files fsWitness commandsWitness DATASET_PATH).labels).filter
        (fun p => p.2 = 2) = commandPairs fsWitness DATASET_PATH 2 "yes" :=
  ⟨(C6_missing_or_empty_dir fsWitness commandsWitness DATASET_PATH 0 (by decide)).1 (by decide),
   (C6_missing_or_empty_dir fsWitness commandsWitness DATASET_PATH 1
      (by decide)).2.1 ["x.txt"] (by decide) (by decide),
   (C6_missing_or_empty_dir fsWitness commandsWitness DATASET_PATH 2 (by decide)).2.2 2 (by decide)⟩

/-- `frame_length=255` passed to `tf.signal.stft`. -/
def frame_length : Nat := 255

/-- `frame_step=128` passed to `tf.signal.stft`. -/
def frame_step : Nat := 128

/-- The default `fft_length` of `tf.signal.stft`: the smallest enclosing
power of two of `frame_length`, here `2^ceil(log2(255)) = 256`. -/
def fft_length : Nat := 256

theorem fft_length_enclosing :
    fft_length = 2 ^ 8 ∧ 2 ^ 7 < frame_length ∧ frame_length ≤ 2 ^ 8 := by decide

/-- Number of frequency bins of the one-sided STFT output. -/
def numBins : Nat := fft_length / 2 + 1

/-- Number of STFT frames for a signal of `n` samples (`pad_end=False`). -/
def numFrames (n : Nat) : Nat :=
  if n < frame_length then 0 else (n - frame_length) / frame_step + 1

/-- Periodic Hann window of length `frame_length`, the default window of
`tf.signal.stft`. -/
def hannWindow : List Float :=
  (List.range frame_length).map (fun k =>
    0.5 - 0.5 * Float.cos (2 * 3.141592653589793 * Float.ofNat k / Float.ofNat frame_length))

/-- Magnitude of bin `k` of the real FFT of a frame zero-padded to
`fft_length` samples. -/
def rfftAbsBin (x : List Float) (k : Nat) : Float :=
  let re := (List.range fft_length).foldl (fun s j =>
    s + x.getD j 0 * Float.cos (2 * 3.141592653589793 * Float.ofNat k * Float.ofNat j /
      Float.ofNat fft_length)) 0
  let im := (List.range fft_length).foldl (fun s j =>
    s - x.getD j 0 * Float.sin (2 * 3.141592653589793 * Float.ofNat k * Float.ofNat j /
      Float.ofNat fft_length)) 0
  Float.sqrt (re * re + im * im)

/-- `tf.abs(tf.signal.stft(audio, frame_length=255, frame_step=128))`,
modelled from the documented behaviour of `tf.signal.stft`: overlapping
frames of 255 samples every 128 samples (no padding at the end), each
multiplied by the periodic Hann window and sent through the one-sided
`fft_length`-point FFT magnitude. -/
def stftAbs (audio : List Float) : List (List Float) :=
  (List.range (numFrames audio.length)).map (fun i =>
    let frame := (audio.drop (i * frame_step)).take frame_length
    let windowed := List.zipWith (fun a w => a * w) frame hannWindow
    (List.range numBins).map (fun k => rfftAbsBin windowed k))

/-- Lines 79–81 of the script: `audio = audio[:16000]`, then concatenate
`tf.zeros([16000] - tf.shape(audio))`. -/
def padOrTruncate (audio : List Float) : List Float :=
  let audio := audio.take 16000
  let zero_padding := List.replicate (16000 - audio.length) (0 : Float)
  audio ++ zero_padding

/-- The body of the `for path in paths` loop of `paths_to_spectrograms`:
decode (the environment's `decode` stands for `tf.audio.decode_wav` plus the
channel squeeze), truncate/zero-pad to one second, STFT magnitude, and a
trailing channel dimension added by `expand_dims`. -/
def spectrogramOf (decode : String → List Float) (path : String) :
    List (List (List Float)) :=
  let audio := decode path
  let audio := padOrTruncate audio
  let spectrogram := stftAbs audio
  spectrogram.map (fun row => row.map (fun v => [v]))

/-- `paths_to_spectrograms(paths)` from the script. -/
def paths_to_spectrograms (decode : String → List Float) (paths : List String) :
    List (List (List (List Float))) :=
  paths.map (spectrogramOf decode)

theorem padOrTruncate_length (audio : List Float) : (padOrTruncate audio).length = 16000 := by
  unfold padOrTruncate
  simp only [List.length_append, List.length_take, List.length_replicate]
  omega

theorem stftAbs_length (audio : List Float) : (stftAbs audio).length = numFrames audio.length := by
  unfold stftAbs
  simp

theorem stftAbs_row_length (audio : List Float) (row : List Float) (h : row ∈ stftAbs audio) :
    row.length = numBins := by
  unfold stftAbs at h
  obtain ⟨i, _, rfl⟩ := List.mem_map.mp h
  simp

/-- Claim C9: the decoded clip is normalized to exactly 16000 samples before
the STFT: a longer clip keeps its first 16000 samples, a shorter one is
extended with zeros to 16000, and one of exactly 16000 samples passes
through unchanged. -/
theorem C9_pad_or_truncate (audio : List Float) :
    (16000 ≤ audio.length → padOrTruncate audio = audio.take 16000) ∧
    (audio.length ≤ 16000 →
      padOrTruncate audio = audio ++ List.replicate (16000 - audio.length) 0) ∧
    (audio.length = 16000 → padOrTruncate audio = audio) ∧
    (padOrTruncate audio).length = 16000 := by
  refine ⟨?_, ?_, ?_, padOrTruncate_length audio⟩
  · intro h
    unfold padOrTruncate
    simp only [List.length_take, Nat.min_eq_left h, Nat.sub_self, List.replicate_zero,
      List.append_nil]
  · intro h
    unfold padOrTruncate
    simp only [List.take_of_length_le h]
  · intro h
    unfold padOrTruncate
    simp only [List.take_of_length_le (le_of_eq h), h, Nat.sub_self, List.replicate_zero,
      List.append_nil]

/-- Witness for C9 at a long, an empty and an exactly-one-second clip. -/
theorem C9_pad_or_truncate_witness :
    padOrTruncate (List.replicate 16002 (1 : Float)) =
      (List.replicate 16002 (1 : Float)).take 16000 ∧
    padOrTruncate ([] : List Float) =
      [] ++ List.replicate (16000 - ([] : List Float).length) (0 : Float) ∧
    padOrTruncate (List.replicate 16000 (1 : Float)) = List.replicate 16000 (1 : Float) :=
  ⟨(C9_pad_or_truncate _).1 (by simp only [List.length_replicate]; omega),
   (C9_pad_or_truncate ([] : List Float)).2.1 (by simp),
   (C9_pad_or_truncate _).2.2.1 (by simp only [List.length_replicate])⟩

/-- Claim C4: every spectrogram `paths_to_spectrograms` produces has the
fixed shape (124, 129, 1) — 124 frames, `1 + (16000 - 255) / 128`; 129
one-sided bins, `256 / 2 + 1`; one channel — for every path, whatever the
decoded clip's original length. -/
theorem C4_spectrogram_shape (decode : String → List Float) (paths : List String)
    (s : List (List (List Float))) (hs : s ∈ paths_to_spectrograms decode paths) :
    s.length = 124 ∧ (∀ row ∈ s, row.length = 129) ∧
    (∀ row ∈ s, ∀ c ∈ row, c.length = 1) ∧
    numFrames 16000 = 1 + (16000 - 255) / 128 ∧ numBins = 256 / 2 + 1 := by
  obtain ⟨p, hp, rfl⟩ := List.mem_map.mp hs
  refine ⟨?_, ?_, ?_, by decide, by decide⟩
  · show ((stftAbs (padOrTruncate (decode p))).map (fun row => row.map (fun v => [v]))).length = 124
    rw [List.length_map, stftAbs_length, padOrTruncate_length]
    decide
  · intro row hrow
    obtain ⟨r, hr, rfl⟩ := List.mem_map.mp hrow
    rw [List.length_map, stftAbs_row_length _ r hr]
    decide
  · intro row hrow c hc
    obtain ⟨r, hr, rfl⟩ := List.mem_map.mp hrow
    obtain ⟨v, hv, rfl⟩ := List.mem_map.mp hc
    rfl

/-- Decoder used by witnesses: every path decodes to an empty clip. -/
def decodeWitness : String → List Float := fun _ => []

/-- Witness for C4 at a one-element path list. -/
theorem C4_spectrogram_shape_witness :
    (spectrogramOf decodeWitness "p").length = 124 ∧
    (∀ row ∈ spectrogramOf decodeWitness "p", row.length = 129) ∧
    (∀ row ∈ spectrogramOf decodeWitness "p", ∀ c ∈ row, c.length = 1) ∧
    numFrames 16000 = 1 + (16000 - 255) / 128 ∧ numBins = 256 / 2 + 1 :=
  C4_spectrogram_shape decodeWitness ["p"] (spectrogramOf decodeWitness "p")
    (by simp [paths_to_spectrograms])

/-- Insertion into a list sorted by `le`. -/
def insertBy {α : Type} (le : α → α → Bool) (x : α) : List α → List α
  | [] => [x]
  | y :: ys => if le x y then x :: y :: ys else y :: insertBy le x ys

/-- Insertion sort; models the ascending order of `np.unique` and the
descending remainder order used inside sklearn's `_approximate_mode`. -/
def sortBy {α : Type} (le : α → α → Bool) : List α → List α
  | [] => []
  | x :: xs => insertBy le x (sortBy le xs)

theorem insertBy_perm {α : Type} (le : α → α → Bool) (x : α) (l : List α) :
    (insertBy le x l).Perm (x :: l) := by
  induction l with
  | nil => exact List.Perm.refl _
  | cons y ys ih =>
    unfold insertBy
    split
    · exact List.Perm.refl _
    · exact (ih.cons y).trans (List.Perm.swap x y ys)

theorem sortBy_perm {α : Type} (le : α → α → Bool) (l : List α) :
    (sortBy le l).Perm l := by
  induction l with
  | nil => exact List.Perm.refl _
  | cons x xs ih => exact (insertBy_perm le x (sortBy le xs)).trans (ih.cons x)

theorem div_add_div_le (a b n : Nat) : a / n + b / n ≤ (a + b) / n := by
  rcases Nat.eq_zero_or_pos n with h | h
  · simp [h]
  · rw [Nat.le_div_iff_mul_le h]
    calc (a / n + b / n) * n = a / n * n + b / n * n := by ring
    _ ≤ a + b := Nat.add_le_add (Nat.div_mul_le_self a n) (Nat.div_mul_le_self b n)

theorem sum_div_le (l : List Nat) (n : Nat) :
    (l.map (fun c => c / n)).sum ≤ l.sum / n := by
  induction l with
  | nil => simp
  | cons a t ih =>
    simp only [List.map_cons, List.sum_cons]
    exact le_trans (Nat.add_le_add_left ih _) (div_add_div_le a t.sum n)

theorem sum_map_mul_right_nat (l : List Nat) (d : Nat) :
    (l.map (fun c => c * d)).sum = l.sum * d := by
  induction l with
  | nil => simp
  | cons a t ih => simp [ih, Nat.add_mul]

theorem sum_map_mul_left_nat {α : Type} (l : List α) (f : α → Nat) (T : Nat) :
    (l.map (fun c => T * f c)).sum = T * (l.map f).sum := by
  induction l with
  | nil => simp
  | cons a t ih => simp [ih, Nat.mul_add]

theorem sum_map_add_nat {α : Type} (l : List α) (f g : α → Nat) :
    (l.map (fun x => f x + g x)).sum = (l.map f).sum + (l.map g).sum := by
  induction l with
  | nil => simp
  | cons a t ih =>
    simp only [List.map_cons, List.sum_cons, ih]
    omega

/-- The number of leftover draws `_approximate_mode` assigns by largest
remainder, after every class got the floor of its proportional share. -/
def approxNeed (counts : List Nat) (nDraws : Nat) : Nat :=
  nDraws - (counts.map (fun c => c * nDraws / counts.sum)).sum

/-- The enumerated class counts sorted by decreasing remainder of the
proportional share; sklearn breaks remainder ties with its rng, realized
here as smallest-class-index-first. -/
def approxOrder (counts : List Nat) (nDraws : Nat) : List (Nat × Nat) :=
  sortBy (fun p q =>
      decide (q.2 * nDraws % counts.sum < p.2 * nDraws % counts.sum) ||
      (decide (p.2 * nDraws % counts.sum = q.2 * nDraws % counts.sum) && decide (p.1 ≤ q.1)))
    counts.enum

/-- Indices of the classes that receive one leftover draw. -/
def approxChosen (counts : List Nat) (nDraws : Nat) : List Nat :=
  ((approxOrder counts nDraws).take (approxNeed counts nDraws)).map Prod.fst

/-- Modelled from sklearn's `_approximate_mode(class_counts, n_draws, rng)`:
class `i` draws `floor(class_counts[i] * n_draws / total)` plus one more when
its remainder is among the `approxNeed` largest. -/
def approximateMode (counts : List Nat) (nDraws : Nat) : List Nat :=
  counts.enum.map (fun p => p.2 * nDraws / counts.sum +
    if p.1 ∈ approxChosen counts nDraws then 1 else 0)

theorem approximateMode_length (counts : List Nat) (d : Nat) :
    (approximateMode counts d).length = counts.length := by
  unfold approximateMode
  simp [List.enum_length]

theorem approxMode_floored_sum_le (counts : List Nat) (d : Nat) :
    (counts.map (fun c => c * d / counts.sum)).sum ≤ d := by
  rcases Nat.eq_zero_or_pos counts.sum with h | h
  · have : counts.map (fun c => c * d / counts.sum) = counts.map (fun _ => 0) := by
      apply List.map_congr_left
      intro c _
      rw [h]
      simp
    rw [this]
    simp
  · have h1 : (counts.map (fun c => c * d / counts.sum)).sum ≤
        (counts.map (fun c => c * d)).sum / counts.sum := by
      have h2 := sum_div_le (counts.map (fun c => c * d)) counts.sum
      rwa [List.map_map] at h2
    have h2 : (counts.map (fun c => c * d)).sum / counts.sum = counts.sum * d / counts.sum := by
      rw [sum_map_mul_right_nat, Nat.mul_comm]
    have h3 : counts.sum * d / counts.sum = d := Nat.mul_div_cancel_left d h
    omega

theorem approxNeed_lt (counts : List Nat) (d : Nat) (hT : 0 < counts.sum) :
    approxNeed counts d < counts.length := by
  have hk : 0 < counts.length := by
    cases counts with
    | nil => simp at hT
    | cons a t => simp
  have hmap : counts.map (fun c => c * d) =
      counts.map (fun c => counts.sum * (c * d / counts.sum) + (c * d) % counts.sum) := by
    apply List.map_congr_left
    intro c _
    exact (Nat.div_add_mod (c * d) counts.sum).symm
  have h1 : counts.sum * d = counts.sum * (counts.map (fun c => c * d / counts.sum)).sum +
      (counts.map (fun c => (c * d) % counts.sum)).sum := by
    have h := congrArg List.sum hmap
    rw [sum_map_mul_right_nat] at h
    rw [h, sum_map_add_nat, sum_map_mul_left_nat]
  have h2 : (counts.map (fun c => (c * d) % counts.sum)).sum ≤
      counts.length * (counts.sum - 1) := by
    have h := List.sum_le_card_nsmul (counts.map (fun c => (c * d) % counts.sum))
      (counts.sum - 1) ?_
    · simpa [smul_eq_mul, List.length_map] using h
    · intro x hx
      obtain ⟨c, _, rfl⟩ := List.mem_map.mp hx
      have := Nat.mod_lt (c * d) hT
      omega
  have h4 : counts.length * (counts.sum - 1) < counts.length * counts.sum :=
    (Nat.mul_lt_mul_left hk).mpr (by omega)
  have h6 : counts.sum * d <
      counts.sum * ((counts.map (fun c => c * d / counts.sum)).sum + counts.length) := by
    rw [Nat.mul_add]
    have hcomm : counts.length * counts.sum = counts.sum * counts.length := Nat.mul_comm _ _
    omega
  have h7 := Nat.lt_of_mul_lt_mul_left h6
  unfold approxNeed
  omega

theorem approxOrder_perm (counts : List Nat) (d : Nat) :
    (approxOrder counts d).Perm counts.enum := by
  unfold approxOrder
  exact sortBy_perm _ _

theorem approxChosen_nodup (counts : List Nat) (d : Nat) : (approxChosen counts d).Nodup := by
  have hperm : ((approxOrder counts d).map Prod.fst).Perm (List.range counts.length) := by
    have h1 := (approxOrder_perm counts d).map Prod.fst
    rwa [List.enum_map_fst] at h1
  have hnd : ((approxOrder counts d).map Prod.fst).Nodup :=
    hperm.nodup_iff.mpr (List.nodup_range _)
  rw [approxChosen, List.map_take]
  exact List.Nodup.sublist (List.take_sublist _ _) hnd

theorem approxChosen_lt (counts : List Nat) (d : Nat) (x : Nat)
    (hx : x ∈ approxChosen counts d) : x < counts.length := by
  rw [approxChosen, List.map_take] at hx
  have h1 : x ∈ (approxOrder counts d).map Prod.fst := List.mem_of_mem_take hx
  have hperm : ((approxOrder counts d).map Prod.fst).Perm (List.range counts.length) := by
    have h2 := (approxOrder_perm counts d).map Prod.fst
    rwa [List.enum_map_fst] at h2
  exact List.mem_range.mp (hperm.mem_iff.mp h1)

theorem approxChosen_length (counts : List Nat) (d : Nat) (hT : 0 < counts.sum) :
    (approxChosen counts d).length = approxNeed counts d := by
  rw [approxChosen, List.length_map, List.length_take]
  have h1 : (approxOrder counts d).length = counts.length := by
    rw [(approxOrder_perm counts d).length_eq, List.enum_length]
  have h2 := approxNeed_lt counts d hT
  omega

theorem sum_map_ind_eq_countP {α : Type} (l : List α) (p : α → Prop) [DecidablePred p] :
    (l.map (fun a => if p a then 1 else 0)).sum = l.countP (fun a => decide (p a)) := by
  induction l with
  | nil => simp
  | cons a t ih =>
    simp only [List.map_cons, List.sum_cons, List.countP_cons, ih]
    by_cases h : p a
    · simp [h]
      omega
    · simp [h]

theorem sum_range_ind (k : Nat) (chosen : List Nat) (hnd : chosen.Nodup)
    (hsub : ∀ x ∈ chosen, x < k) :
    ((List.range k).map (fun i => if i ∈ chosen then 1 else 0)).sum = chosen.length := by
  rw [sum_map_ind_eq_countP, List.countP_eq_length_filter]
  have hperm : ((List.range k).filter (fun i => decide (i ∈ chosen))).Perm chosen := by
    refine (List.perm_ext_iff_of_nodup
      (List.Nodup.filter _ (List.nodup_range _)) hnd).mpr ?_
    intro x
    simp only [List.mem_filter, List.mem_range, decide_eq_true_eq]
    constructor
    · exact fun h => h.2
    · exact fun h => ⟨hsub x h, h⟩
  exact hperm.length_eq

theorem sum_enum_map_ind (counts : List Nat) (f : Nat → Nat) (chosen : List Nat)
    (hnd : chosen.Nodup) (hsub : ∀ x ∈ chosen, x < counts.length) :
    (counts.enum.map (fun p => f p.2 + if p.1 ∈ chosen then 1 else 0)).sum =
      (counts.map f).sum + chosen.length := by
  rw [sum_map_add_nat]
  have h1 : counts.enum.map (fun p => f p.2) = counts.map f := by
    have := congrArg (List.map f) (List.enum_map_snd counts)
    rwa [List.map_map] at this
  have h2 : counts.enum.map (fun p => if p.1 ∈ chosen then 1 else 0) =
      (List.range counts.length).map (fun i => if i ∈ chosen then 1 else 0) := by
    have := congrArg (List.map (fun i => if i ∈ chosen then 1 else 0)) (List.enum_map_fst counts)
    rwa [List.map_map] at this
  rw [h1, h2, sum_range_ind counts.length chosen hnd hsub]

theorem approximateMode_sum (counts : List Nat) (d : Nat) (hT : 0 < counts.sum) :
    (approximateMode counts d).sum = d := by
  unfold approximateMode
  rw [sum_enum_map_ind counts (fun c => c * d / counts.sum) (approxChosen counts d)
    (approxChosen_nodup counts d) (approxChosen_lt counts d)]
  rw [approxChosen_length counts d hT]
  have h1 := approxMode_floored_sum_le counts d
  unfold approxNeed
  omega

theorem approximateMode_getElem (counts : List Nat) (d j : Nat) (hj : j < counts.length)
    (hj2 : j < (approximateMode counts d).length) :
    counts[j] * d / counts.sum ≤ (approximateMode counts d)[j] ∧
    (approximateMode counts d)[j] ≤ counts[j] * d / counts.sum + 1 := by
  have h : (approximateMode counts d)[j] = counts[j] * d / counts.sum +
      if j ∈ approxChosen counts d then 1 else 0 := by
    simp [approximateMode, List.getElem_map, List.getElem_enum]
  rw [h]
  split <;> omega

theorem approximateMode_getElem_le (counts : List Nat) (d j : Nat) (hj : j < counts.length)
    (hj2 : j < (approximateMode counts d).length)
    (hc : 0 < counts[j]) (hd : d < counts.sum) :
    (approximateMode counts d)[j] ≤ counts[j] := by
  have hb := (approximateMode_getElem counts d j hj hj2).2
  have hfl : counts[j] * d / counts.sum < counts[j] := by
    rw [Nat.div_lt_iff_lt_mul (by omega : 0 < counts.sum)]
    exact (Nat.mul_lt_mul_left hc).mpr hd
  omega

theorem approximateMode_self (counts : List Nat) (hT : 0 < counts.sum) :
    approximateMode counts counts.sum = counts := by
  have hfl : counts.map (fun c => c * counts.sum / counts.sum) = counts := by
    conv_rhs => rw [← List.map_id counts]
    apply List.map_congr_left
    intro c _
    simp [Nat.mul_div_cancel c hT]
  have hneed : approxNeed counts counts.sum = 0 := by
    unfold approxNeed
    rw [hfl]
    omega
  have hch : approxChosen counts counts.sum = [] := by
    unfold approxChosen
    rw [hneed]
    simp
  unfold approximateMode
  rw [hch]
  simp only [List.not_mem_nil, if_false, Nat.add_zero]
  have h1 : counts.enum.map (fun p : Nat × Nat => p.2 * counts.sum / counts.sum) =
      counts.map (fun c => c * counts.sum / counts.sum) := by
    have := congrArg (List.map (fun c => c * counts.sum / counts.sum)) (List.enum_map_snd counts)
    rwa [List.map_map] at this
  rw [h1, hfl]

/-- The (path, label) rows the script hands to `train_test_split`. -/
def ttsPairs (paths : List String) (labels : List Nat) : List (String × Nat) :=
  paths.zip labels

/-- `np.unique(labels)`: the distinct class labels in ascending order. -/
def ttsClasses (labels : List Nat) : List Nat :=
  sortBy (fun a b => decide (a ≤ b)) labels.dedup

/-- The rows of one class, in order of appearance. -/
def ttsItems (paths : List String) (labels : List Nat) (c : Nat) : List (String × Nat) :=
  (ttsPairs paths labels).filter (fun r => r.2 = c)

/-- Per-class sample counts, aligned with `ttsClasses`. -/
def ttsCounts (paths : List String) (labels : List Nat) : List Nat :=
  (ttsClasses labels).map (fun c => (ttsItems paths labels c).length)

/-- Modelled from sklearn `_validate_shuffle_split` with `test_size=0.2`:
`ceil(0.2 * n)` test samples. -/
def n_test_of (n : Nat) : Nat := (n + 4) / 5

/-- `n_train = n - n_test` when `train_size` is `None`. -/
def n_train_of (n : Nat) : Nat := n - n_test_of n

/-- Per-class train draws, from `_approximate_mode`. -/
def ttsNI (paths : List String) (labels : List Nat) : List Nat :=
  approximateMode (ttsCounts paths labels) (n_train_of (ttsPairs paths labels).length)

/-- Per-class test draws: `_approximate_mode` on the counts left after the
train draw. -/
def ttsTI (paths : List String) (labels : List Nat) : List Nat :=
  approximateMode
    (List.zipWith (fun a b => a - b) (ttsCounts paths labels) (ttsNI paths labels))
    (n_test_of (ttsPairs paths labels).length)

/-- For each class, the train rows (the first `nI` of the class) and the
test rows (the next `tI`); taking each class's rows in order of appearance
realizes one of the per-class index permutations sklearn draws from its
seeded rng — every property proved below is invariant under that choice. -/
def ttsPerClass (paths : List String) (labels : List Nat) :
    List (List (String × Nat) × List (String × Nat)) :=
  List.zipWith (fun (cn : Nat × Nat) (t : Nat) =>
      ((ttsItems paths labels cn.1).take cn.2,
       ((ttsItems paths labels cn.1).drop cn.2).take t))
    ((ttsClasses labels).zip (ttsNI paths labels)) (ttsTI paths labels)

/-- All train rows. -/
def ttsTrainPairs (paths : List String) (labels : List Nat) : List (String × Nat) :=
  ((ttsPerClass paths labels).map Prod.fst).flatten

/-- All test rows. -/
def ttsTestPairs (paths : List String) (labels : List Nat) : List (String × Nat) :=
  ((ttsPerClass paths labels).map Prod.snd).flatten

/-- Modelled from sklearn `train_test_split(audio_paths, labels,
test_size=0.2, random_state=seed, stratify=labels)` as the script calls it:
the stratified shuffle split computation performed once sklearn's input
validation has passed, returning
`(train_paths, val_paths, train_labels, val_labels)`; the full call with
its `ValueError` paths is `sklearn_train_test_split` below. -/
def train_test_split (paths : List String) (labels : List Nat) :
    List String × List String × List Nat × List Nat :=
  ((ttsTrainPairs paths labels).map Prod.fst, (ttsTestPairs paths labels).map Prod.fst,
   (ttsTrainPairs paths labels).map Prod.snd, (ttsTestPairs paths labels).map Prod.snd)

/-- Modelled from the full sklearn call, its `ValueError` paths included, in
the order sklearn performs the checks: `check_consistent_length` rejects
arrays of different lengths; `_validate_shuffle_split` rejects a split whose
train set would be empty; `StratifiedShuffleSplit._iter_indices` rejects a
least-populated class with fewer than two members, a train draw smaller
than the number of classes, and a test draw smaller than the number of
classes. The messages are sklearn's with the interpolated numerals elided.
When every check passes, the call returns the split itself. -/
def sklearn_train_test_split (paths : List String) (labels : List Nat) :
    Except String (List String × List String × List Nat × List Nat) :=
  if paths.length ≠ labels.length then
    Except.error "Found input variables with inconsistent numbers of samples"
  else if n_train_of paths.length = 0 then
    Except.error "With the given n_samples, test_size and train_size, the resulting train set will be empty. Adjust any of the aforementioned parameters."
  else if (ttsCounts paths labels).any (fun c => c < 2) then
    Except.error "The least populated class in y has only 1 member, which is too few. The minimum number of groups for any class cannot be less than 2."
  else if n_train_of paths.length < (ttsClasses labels).length then
    Except.error "The train_size should be greater or equal to the number of classes"
  else if n_test_of paths.length < (ttsClasses labels).length then
    Except.error "The test_size should be greater or equal to the number of classes"
  else
    Except.ok (train_test_split paths labels)

theorem ttsClasses_nodup (labels : List Nat) : (ttsClasses labels).Nodup :=
  (sortBy_perm _ labels.dedup).nodup_iff.mpr (List.nodup_dedup labels)

theorem mem_ttsClasses (labels : List Nat) (c : Nat) : c ∈ ttsClasses labels ↔ c ∈ labels :=
  (sortBy_perm _ labels.dedup).mem_iff.trans (List.mem_dedup)

theorem ttsPairs_length (paths : List String) (labels : List Nat)
    (hlen : paths.length = labels.length) :
    (ttsPairs paths labels).length = labels.length := by
  rw [ttsPairs, List.length_zip, hlen, Nat.min_self]

theorem ttsPairs_map_snd (paths : List String) (labels : List Nat)
    (hlen : paths.length = labels.length) :
    (ttsPairs paths labels).map Prod.snd = labels :=
  List.map_snd_zip paths labels (le_of_eq hlen.symm)

theorem sum_ind_mul_eq_count {β : Type} [DecidableEq β] (cs : List β) (x : β) (m : Nat) :
    (cs.map (fun c => if x = c then m else 0)).sum = cs.count x * m := by
  induction cs with
  | nil => simp
  | cons c t ih =>
    simp only [List.map_cons, List.sum_cons, List.count_cons, ih]
    by_cases h : x = c
    · subst h
      simp only [beq_self_eq_true, eq_self_iff_true, if_true, Nat.add_mul, Nat.one_mul]
      omega
    · have h2 : (c == x) = false := beq_eq_false_iff_ne.mpr (fun hcx => h hcx.symm)
      simp only [if_neg h, h2, Bool.false_eq_true, if_false, Nat.add_zero, Nat.zero_add]

theorem flatten_filter_classes_perm {α β : Type} [DecidableEq α] [DecidableEq β]
    (key : α → β) (l : List α) (cs : List β) (hnd : cs.Nodup)
    (hcov : ∀ a ∈ l, key a ∈ cs) :
    ((cs.map (fun c => l.filter (fun a => decide (key a = c)))).flatten).Perm l := by
  rw [List.perm_iff_count]
  intro x
  rw [List.count_flatten, List.map_map]
  have hterm : cs.map (List.count x ∘ fun c => l.filter (fun a => decide (key a = c))) =
      cs.map (fun c => if key x = c then l.count x else 0) := by
    apply List.map_congr_left
    intro c _
    simp only [Function.comp]
    by_cases h : key x = c
    · rw [if_pos h]
      exact List.count_filter (by simp [h])
    · rw [if_neg h]
      rw [List.count_eq_zero]
      intro hx
      exact h (by simpa using (List.mem_filter.mp hx).2)
  rw [hterm, sum_ind_mul_eq_count]
  by_cases hx : x ∈ l
  · rw [List.count_eq_one_of_mem hnd (hcov x hx), Nat.one_mul]
  · rw [List.count_eq_zero.mpr hx]
    simp

theorem ttsItems_flatten_perm (paths : List String) (labels : List Nat)
    (hlen : paths.length = labels.length) :
    (((ttsClasses labels).map (ttsItems paths labels)).flatten).Perm (ttsPairs paths labels) := by
  have h := flatten_filter_classes_perm (fun r : String × Nat => r.2) (ttsPairs paths labels)
    (ttsClasses labels) (ttsClasses_nodup labels) ?_
  · exact h
  · intro r hr
    rw [mem_ttsClasses]
    have : r.2 ∈ (ttsPairs paths labels).map Prod.snd := List.mem_map_of_mem Prod.snd hr
    rwa [ttsPairs_map_snd paths labels hlen] at this

theorem ttsCounts_sum (paths : List String) (labels : List Nat)
    (hlen : paths.length = labels.length) :
    (ttsCounts paths labels).sum = labels.length := by
  have h := (ttsItems_flatten_perm paths labels hlen).length_eq
  rw [List.length_flatten, List.map_map, ttsPairs_length paths labels hlen] at h
  simpa [ttsCounts, Function.comp] using h

theorem ttsCounts_pos (paths : List String) (labels : List Nat)
    (hlen : paths.length = labels.length) (j : Nat) (hj : j < (ttsCounts paths labels).length)
    (hj2 : j < (ttsClasses labels).length) :
    0 < (ttsCounts paths labels)[j] := by
  simp only [ttsCounts] at hj ⊢
  rw [List.getElem_map]
  have hc : (ttsClasses labels)[j] ∈ labels := by
    rw [← mem_ttsClasses]
    exact List.getElem_mem _
  have hc2 : (ttsClasses labels)[j] ∈ (ttsPairs paths labels).map Prod.snd := by
    rw [ttsPairs_map_snd paths labels hlen]
    exact hc
  obtain ⟨r, hr, hrc⟩ := List.mem_map.mp hc2
  exact List.length_pos_of_mem (List.mem_filter.mpr ⟨hr, by simp [hrc]⟩)

theorem ttsItems_length_count (paths : List String) (labels : List Nat)
    (hlen : paths.length = labels.length) (c : Nat) :
    (ttsItems paths labels c).length = labels.count c := by
  rw [ttsItems, ← List.countP_eq_length_filter, List.count_eq_countP]
  conv_rhs => rw [← ttsPairs_map_snd paths labels hlen]
  rw [List.countP_map]
  rfl

theorem sum_zipWith_sub (as bs : List Nat) (hlen : bs.length = as.length)
    (hle : ∀ (j : Nat) (hj : j < as.length) (hj2 : j < bs.length), bs[j] ≤ as[j]) :
    (List.zipWith (fun a b => a - b) as bs).sum = as.sum - bs.sum ∧ bs.sum ≤ as.sum := by
  induction as generalizing bs with
  | nil =>
    have hb : bs = [] := List.eq_nil_of_length_eq_zero (by simpa using hlen)
    subst hb
    simp
  | cons a at2 ih =>
    cases bs with
    | nil => simp at hlen
    | cons b bt =>
      have h0 : b ≤ a := hle 0 (by simp) (by simp)
      have hlt : bt.length = at2.length := by simpa using hlen
      have ht : ∀ (j : Nat) (hj : j < at2.length) (hj2 : j < bt.length), bt[j] ≤ at2[j] := by
        intro j hj hj2
        have h := hle (j + 1) (by simpa using Nat.succ_lt_succ hj)
          (by simpa using Nat.succ_lt_succ hj2)
        simpa using h
      obtain ⟨ih1, ih2⟩ := ih bt hlt ht
      constructor
      · simp only [List.zipWith_cons_cons, List.sum_cons, ih1]
        omega
      · simp only [List.sum_cons]
        omega

theorem ttsNI_length (paths : List String) (labels : List Nat) :
    (ttsNI paths labels).length = (ttsCounts paths labels).length := by
  rw [ttsNI, approximateMode_length]

theorem n_train_lt (n : Nat) (hn : 0 < n) : n_train_of n < n := by
  unfold n_train_of n_test_of
  omega

theorem ttsNI_facts (paths : List String) (labels : List Nat)
    (hlen : paths.length = labels.length) (hne : labels ≠ [])
    (j : Nat) (hj : j < (ttsClasses labels).length)
    (hjc : j < (ttsCounts paths labels).length) (hjn : j < (ttsNI paths labels).length) :
    (ttsCounts paths labels)[j] * n_train_of labels.length / labels.length ≤
        (ttsNI paths labels)[j] ∧
    (ttsNI paths labels)[j] ≤
        (ttsCounts paths labels)[j] * n_train_of labels.length / labels.length + 1 ∧
    (ttsNI paths labels)[j] ≤ (ttsCounts paths labels)[j] := by
  have hn : 0 < labels.length := List.length_pos.mpr hne
  have hsum := ttsCounts_sum paths labels hlen
  have hplen := ttsPairs_length paths labels hlen
  have h1 := approximateMode_getElem (ttsCounts paths labels)
    (n_train_of (ttsPairs paths labels).length) j hjc (by rwa [ttsNI] at hjn)
  have h2 := approximateMode_getElem_le (ttsCounts paths labels)
    (n_train_of (ttsPairs paths labels).length) j hjc (by rwa [ttsNI] at hjn)
    (ttsCounts_pos paths labels hlen j hjc hj)
    (by rw [hsum, hplen]; exact n_train_lt labels.length hn)
  simp only [hsum, hplen] at h1
  have hNI : ttsNI paths labels = approximateMode (ttsCounts paths labels)
      (n_train_of labels.length) := by
    rw [ttsNI, hplen]
  simp only [hNI]
  refine ⟨h1.1, h1.2, ?_⟩
  simp only [hplen] at h2
  exact h2

theorem ttsNI_sum (paths : List String) (labels : List Nat)
    (hlen : paths.length = labels.length) (hne : labels ≠ []) :
    (ttsNI paths labels).sum = n_train_of labels.length := by
  have hn : 0 < labels.length := List.length_pos.mpr hne
  rw [ttsNI, ttsPairs_length paths labels hlen]
  exact approximateMode_sum _ _ (by rw [ttsCounts_sum paths labels hlen]; omega)

theorem ttsNI_le_all (paths : List String) (labels : List Nat)
    (hlen : paths.length = labels.length) (hne : labels ≠ []) :
    ∀ (j : Nat) (hj : j < (ttsCounts paths labels).length)
      (hj2 : j < (ttsNI paths labels).length),
      (ttsNI paths labels)[j] ≤ (ttsCounts paths labels)[j] := by
  intro j hj hj2
  have hjcl : j < (ttsClasses labels).length := by
    rw [ttsCounts, List.length_map] at hj
    exact hj
  exact (ttsNI_facts paths labels hlen hne j hjcl hj hj2).2.2

theorem ttsTI_eq (paths : List String) (labels : List Nat)
    (hlen : paths.length = labels.length) (hne : labels ≠ []) :
    ttsTI paths labels =
      List.zipWith (fun a b => a - b) (ttsCounts paths labels) (ttsNI paths labels) := by
  have hn : 0 < labels.length := List.length_pos.mpr hne
  have hplen := ttsPairs_length paths labels hlen
  have hremsum : (List.zipWith (fun a b => a - b) (ttsCounts paths labels)
      (ttsNI paths labels)).sum = n_test_of labels.length := by
    obtain ⟨hs1, _⟩ := sum_zipWith_sub (ttsCounts paths labels) (ttsNI paths labels)
      (ttsNI_length paths labels) (ttsNI_le_all paths labels hlen hne)
    rw [hs1, ttsCounts_sum paths labels hlen, ttsNI_sum paths labels hlen hne]
    unfold n_train_of n_test_of
    omega
  rw [ttsTI, hplen, ← hremsum]
  exact approximateMode_self _ (by rw [hremsum]; unfold n_test_of; omega)

/-- Canonical per-class form of `ttsPerClass`: class list and (train draw,
test draw) pairs side by side. -/
def perSplit (paths : List String) (labels : List Nat) (cs : List Nat)
    (qs : List (Nat × Nat)) : List (List (String × Nat) × List (String × Nat)) :=
  List.zipWith (fun c q => ((ttsItems paths labels c).take q.1,
      ((ttsItems paths labels c).drop q.1).take q.2)) cs qs

theorem ttsPerClass_eq (paths : List String) (labels : List Nat) :
    ttsPerClass paths labels = perSplit paths labels (ttsClasses labels)
      ((ttsNI paths labels).zip (ttsTI paths labels)) := by
  apply List.ext_getElem
  · simp only [ttsPerClass, perSplit, List.length_zipWith, List.length_zip]
    omega
  · intro i h1 h2
    simp only [ttsPerClass, perSplit, List.getElem_zipWith, List.getElem_zip]

theorem map_snd_ttsItems (paths : List String) (labels : List Nat) (c : Nat) :
    (ttsItems paths labels c).map Prod.snd =
      List.replicate (ttsItems paths labels c).length c := by
  rw [List.eq_replicate_iff]
  refine ⟨by simp, fun b hb => ?_⟩
  obtain ⟨r, hr, rfl⟩ := List.mem_map.mp hb
  simpa using (List.mem_filter.mp hr).2

theorem count_snd_take_piece (paths : List String) (labels : List Nat) (cl c q : Nat)
    (hq : q ≤ (ttsItems paths labels cl).length) :
    (((ttsItems paths labels cl).take q).map Prod.snd).count c = if cl = c then q else 0 := by
  rw [List.map_take, map_snd_ttsItems, List.take_replicate, List.count_replicate]
  by_cases h : cl = c
  · subst h
    simp [min_eq_left hq]
  · simp [beq_eq_false_iff_ne.mpr h, h]

theorem count_snd_dropTake_piece (paths : List String) (labels : List Nat) (cl c q q2 : Nat)
    (hq2 : q2 = (ttsItems paths labels cl).length - q) :
    ((((ttsItems paths labels cl).drop q).take q2).map Prod.snd).count c =
      if cl = c then q2 else 0 := by
  rw [List.map_take, List.map_drop, map_snd_ttsItems, List.drop_replicate,
    List.take_replicate, List.count_replicate]
  by_cases h : cl = c
  · subst h
    simp [hq2]
  · simp [beq_eq_false_iff_ne.mpr h, h]

theorem count_snd_piece_ne (paths : List String) (labels : List Nat) (cl c : Nat)
    (hne : cl ≠ c) (q1 q2 : Nat) :
    (((ttsItems paths labels cl).take q1).map Prod.snd).count c = 0 ∧
    ((((ttsItems paths labels cl).drop q1).take q2).map Prod.snd).count c = 0 := by
  constructor
  · rw [List.map_take, map_snd_ttsItems, List.take_replicate, List.count_replicate]
    simp [beq_eq_false_iff_ne.mpr hne]
  · rw [List.map_take, List.map_drop, map_snd_ttsItems, List.drop_replicate,
      List.take_replicate, List.count_replicate]
    simp [beq_eq_false_iff_ne.mpr hne]

theorem perSplit_cons (paths : List String) (labels : List Nat) (cl : Nat) (q : Nat × Nat)
    (cst : List Nat) (qt : List (Nat × Nat)) :
    perSplit paths labels (cl :: cst) (q :: qt) =
      ((ttsItems paths labels cl).take q.1,
       ((ttsItems paths labels cl).drop q.1).take q.2) :: perSplit paths labels cst qt := rfl

theorem perm_append_swap {α : Type} (a b c d : List α) :
    ((a ++ b) ++ (c ++ d)).Perm ((a ++ c) ++ (b ++ d)) := by
  have h1 : (b ++ (c ++ d)).Perm (c ++ (b ++ d)) := by
    have h2 : ((b ++ c) ++ d).Perm ((c ++ b) ++ d) :=
      List.Perm.append_right d List.perm_append_comm
    rw [List.append_assoc, List.append_assoc] at h2
    exact h2
  have h3 : (a ++ (b ++ (c ++ d))).Perm (a ++ (c ++ (b ++ d))) :=
    List.Perm.append_left a h1
  rw [List.append_assoc a b (c ++ d), List.append_assoc a c (b ++ d)]
  exact h3

theorem perSplit_facts (paths : List String) (labels : List Nat)
    (cs : List Nat) (qs : List (Nat × Nat))
    (hF : List.Forall₂ (fun c q => q.1 ≤ (ttsItems paths labels c).length ∧
      q.2 = (ttsItems paths labels c).length - q.1) cs qs) :
    ((perSplit paths labels cs qs).map Prod.fst).flatten.length = (qs.map Prod.fst).sum ∧
    ((perSplit paths labels cs qs).map Prod.snd).flatten.length = (qs.map Prod.snd).sum ∧
    (((perSplit paths labels cs qs).map Prod.fst).flatten ++
        ((perSplit paths labels cs qs).map Prod.snd).flatten).Perm
      ((cs.map (ttsItems paths labels)).flatten) := by
  induction hF with
  | nil => simp [perSplit]
  | @cons cl q cst qt hr ht ih =>
    obtain ⟨hr1, hr2⟩ := hr
    obtain ⟨ih1, ih2, ih3⟩ := ih
    have hdrop : ((ttsItems paths labels cl).drop q.1).take q.2 =
        (ttsItems paths labels cl).drop q.1 := by
      apply List.take_of_length_le
      simp [hr2]
    refine ⟨?_, ?_, ?_⟩
    · rw [perSplit_cons]
      simp only [List.map_cons, List.flatten_cons, List.length_append, List.sum_cons]
      rw [ih1]
      simp [min_eq_left hr1]
    · rw [perSplit_cons]
      simp only [List.map_cons, List.flatten_cons, List.length_append, List.sum_cons]
      rw [ih2, hdrop]
      simp [hr2]
    · rw [perSplit_cons]
      simp only [List.map_cons, List.flatten_cons]
      have hswap := perm_append_swap ((ttsItems paths labels cl).take q.1)
        ((perSplit paths labels cst qt).map Prod.fst).flatten
        (((ttsItems paths labels cl).drop q.1).take q.2)
        ((perSplit paths labels cst qt).map Prod.snd).flatten
      refine hswap.trans ?_
      rw [hdrop, List.take_append_drop]
      exact List.Perm.append_left _ ih3

theorem perSplit_count_zero (paths : List String) (labels : List Nat) (c : Nat) :
    ∀ (cs : List Nat) (qs : List (Nat × Nat)), c ∉ cs →
      (((perSplit paths labels cs qs).map Prod.fst).flatten.map Prod.snd).count c = 0 ∧
      (((perSplit paths labels cs qs).map Prod.snd).flatten.map Prod.snd).count c = 0 := by
  intro cs
  induction cs with
  | nil => intro qs _; simp [perSplit]
  | cons cl cst ih =>
    intro qs hc
    cases qs with
    | nil => simp [perSplit]
    | cons q qt =>
      have hcl : cl ≠ c := fun h => hc (h ▸ List.mem_cons_self cl cst)
      have hct : c ∉ cst := fun h => hc (List.mem_cons_of_mem cl h)
      obtain ⟨ih1, ih2⟩ := ih qt hct
      have hz := count_snd_piece_ne paths labels cl c hcl q.1 q.2
      constructor
      · rw [perSplit_cons]
        simp only [List.map_cons, List.flatten_cons, List.map_append, List.count_append]
        rw [hz.1, ih1]
      · rw [perSplit_cons]
        simp only [List.map_cons, List.flatten_cons, List.map_append, List.count_append]
        rw [hz.2, ih2]

theorem perSplit_strat (paths : List String) (labels : List Nat) (P : Nat → Nat × Nat → Prop)
    (cs : List Nat) (qs : List (Nat × Nat))
    (hF : List.Forall₂ (fun c q => q.1 ≤ (ttsItems paths labels c).length ∧
      q.2 = (ttsItems paths labels c).length - q.1 ∧ P c q) cs qs) :
    cs.Nodup → ∀ c ∈ cs,
      ∃ q : Nat × Nat, P c q ∧ q.1 ≤ (ttsItems paths labels c).length ∧
        q.2 = (ttsItems paths labels c).length - q.1 ∧
        (((perSplit paths labels cs qs).map Prod.fst).flatten.map Prod.snd).count c = q.1 ∧
        (((perSplit paths labels cs qs).map Prod.snd).flatten.map Prod.snd).count c = q.2 := by
  induction hF with
  | nil =>
    intro _ c hc
    simp at hc
  | @cons cl q cst qt hr ht ih =>
    intro hnd c hc
    obtain ⟨hr1, hr2, hr3⟩ := hr
    have hnd1 := (List.nodup_cons.mp hnd).1
    have hndt := (List.nodup_cons.mp hnd).2
    rcases List.mem_cons.mp hc with hceq | hctail
    · subst hceq
      have hz := perSplit_count_zero paths labels c cst qt hnd1
      refine ⟨q, hr3, hr1, hr2, ?_, ?_⟩
      · rw [perSplit_cons]
        simp only [List.map_cons, List.flatten_cons, List.map_append, List.count_append]
        rw [count_snd_take_piece paths labels c c q.1 hr1, if_pos rfl, hz.1]
        omega
      · rw [perSplit_cons]
        simp only [List.map_cons, List.flatten_cons, List.map_append, List.count_append]
        rw [count_snd_dropTake_piece paths labels c c q.1 q.2 hr2, if_pos rfl, hz.2]
        omega
    · obtain ⟨q2, hq2P, hq2a, hq2b, hq2c, hq2d⟩ := ih hndt c hctail
      have hclc : cl ≠ c := fun h => hnd1 (h ▸ hctail)
      have hz := count_snd_piece_ne paths labels cl c hclc q.1 q.2
      refine ⟨q2, hq2P, hq2a, hq2b, ?_, ?_⟩
      · rw [perSplit_cons]
        simp only [List.map_cons, List.flatten_cons, List.map_append, List.count_append]
        rw [hz.1, hq2c]
        omega
      · rw [perSplit_cons]
        simp only [List.map_cons, List.flatten_cons, List.map_append, List.count_append]
        rw [hz.2, hq2d]
        omega

theorem ttsCounts_length (paths : List String) (labels : List Nat) :
    (ttsCounts paths labels).length = (ttsClasses labels).length := by
  rw [ttsCounts, List.length_map]

theorem ttsTI_length (paths : List String) (labels : List Nat)
    (hlen : paths.length = labels.length) (hne : labels ≠ []) :
    (ttsTI paths labels).length = (ttsCounts paths labels).length := by
  rw [ttsTI_eq paths labels hlen hne, List.length_zipWith, ttsNI_length]
  omega

theorem tts_master (paths : List String) (labels : List Nat)
    (hlen : paths.length = labels.length) (hne : labels ≠ []) :
    List.Forall₂ (fun c q => q.1 ≤ (ttsItems paths labels c).length ∧
      q.2 = (ttsItems paths labels c).length - q.1 ∧
      ((ttsItems paths labels c).length * n_train_of labels.length / labels.length ≤ q.1 ∧
       q.1 ≤ (ttsItems paths labels c).length * n_train_of labels.length / labels.length + 1))
      (ttsClasses labels) ((ttsNI paths labels).zip (ttsTI paths labels)) := by
  have hcl := ttsCounts_length paths labels
  have hni := ttsNI_length paths labels
  have hti := ttsTI_length paths labels hlen hne
  rw [List.forall₂_iff_get]
  constructor
  · rw [List.length_zip]
    omega
  · intro i h1 h2
    simp only [List.get_eq_getElem]
    have hic : i < (ttsCounts paths labels).length := by omega
    have hin : i < (ttsNI paths labels).length := by omega
    have hit : i < (ttsTI paths labels).length := by omega
    rw [List.getElem_zip]
    have hcount : (ttsCounts paths labels)[i] =
        (ttsItems paths labels (ttsClasses labels)[i]).length := by
      simp [ttsCounts]
    have hfacts := ttsNI_facts paths labels hlen hne i h1 hic hin
    have hti2 : (ttsTI paths labels)[i] =
        (ttsCounts paths labels)[i] - (ttsNI paths labels)[i] := by
      have h := ttsTI_eq paths labels hlen hne
      rw [List.getElem_of_eq h hit, List.getElem_zipWith]
    rw [hcount] at hfacts hti2
    exact ⟨hfacts.2.2, hti2, hfacts.1, hfacts.2.1⟩

/-- Core properties of the split computation, for any equal-length nonempty
input: sizes, partition, and within-one-sample stratification. The claim
theorem below restricts this to inputs sklearn's validation accepts. -/
theorem train_test_split_spec (paths : List String) (labels : List Nat)
    (hlen : paths.length = labels.length) (hne : labels ≠ []) :
    (train_test_split paths labels).2.1.length = (labels.length + 4) / 5 ∧
    (train_test_split paths labels).1.length = labels.length - (labels.length + 4) / 5 ∧
    (train_test_split paths labels).1.length = (train_test_split paths labels).2.2.1.length ∧
    (train_test_split paths labels).2.1.length = (train_test_split paths labels).2.2.2.length ∧
    (((train_test_split paths labels).1.zip (train_test_split paths labels).2.2.1) ++
      ((train_test_split paths labels).2.1.zip (train_test_split paths labels).2.2.2)).Perm
      (paths.zip labels) ∧
    (∀ c ∈ labels, ∃ ni : Nat,
      (train_test_split paths labels).2.2.1.count c = ni ∧
      labels.count c * (labels.length - (labels.length + 4) / 5) / labels.length ≤ ni ∧
      ni ≤ labels.count c * (labels.length - (labels.length + 4) / 5) / labels.length + 1 ∧
      (train_test_split paths labels).2.2.2.count c = labels.count c - ni) := by
  have hn : 0 < labels.length := List.length_pos.mpr hne
  have hmaster := tts_master paths labels hlen hne
  have hF2 : List.Forall₂ (fun c q => q.1 ≤ (ttsItems paths labels c).length ∧
      q.2 = (ttsItems paths labels c).length - q.1)
      (ttsClasses labels) ((ttsNI paths labels).zip (ttsTI paths labels)) :=
    List.Forall₂.imp (fun a b h => ⟨h.1, h.2.1⟩) hmaster
  obtain ⟨hlen1, hlen2, hcount⟩ := perSplit_facts paths labels _ _ hF2
  have hq1 : ((ttsNI paths labels).zip (ttsTI paths labels)).map Prod.fst = ttsNI paths labels :=
    List.map_fst_zip _ _ (by rw [ttsNI_length, ← ttsTI_length paths labels hlen hne])
  have hq2 : ((ttsNI paths labels).zip (ttsTI paths labels)).map Prod.snd = ttsTI paths labels :=
    List.map_snd_zip _ _ (by rw [ttsNI_length, ← ttsTI_length paths labels hlen hne])
  have htrainlen : (ttsTrainPairs paths labels).length = n_train_of labels.length := by
    rw [ttsTrainPairs, ttsPerClass_eq, hlen1, hq1, ttsNI_sum paths labels hlen hne]
  have htestlen : (ttsTestPairs paths labels).length = n_test_of labels.length := by
    rw [ttsTestPairs, ttsPerClass_eq, hlen2, hq2, ttsTI_eq paths labels hlen hne]
    obtain ⟨hs1, _⟩ := sum_zipWith_sub (ttsCounts paths labels) (ttsNI paths labels)
      (ttsNI_length paths labels) (ttsNI_le_all paths labels hlen hne)
    rw [hs1, ttsCounts_sum paths labels hlen, ttsNI_sum paths labels hlen hne]
    unfold n_train_of n_test_of
    omega
  refine ⟨?_, ?_, ?_, ?_, ?_, ?_⟩
  · show ((ttsTestPairs paths labels).map Prod.fst).length = (labels.length + 4) / 5
    rw [List.length_map, htestlen]
    rfl
  · show ((ttsTrainPairs paths labels).map Prod.fst).length =
      labels.length - (labels.length + 4) / 5
    rw [List.length_map, htrainlen]
    rfl
  · show ((ttsTrainPairs paths labels).map Prod.fst).length =
      ((ttsTrainPairs paths labels).map Prod.snd).length
    rw [List.length_map, List.length_map]
  · show ((ttsTestPairs paths labels).map Prod.fst).length =
      ((ttsTestPairs paths labels).map Prod.snd).length
    rw [List.length_map, List.length_map]
  · have hz1 : ((ttsTrainPairs paths labels).map Prod.fst).zip
        ((ttsTrainPairs paths labels).map Prod.snd) = ttsTrainPairs paths labels :=
      (List.zip_of_prod rfl rfl).symm
    have hz2 : ((ttsTestPairs paths labels).map Prod.fst).zip
        ((ttsTestPairs paths labels).map Prod.snd) = ttsTestPairs paths labels :=
      (List.zip_of_prod rfl rfl).symm
    show (((ttsTrainPairs paths labels).map Prod.fst).zip
        ((ttsTrainPairs paths labels).map Prod.snd) ++
      ((ttsTestPairs paths labels).map Prod.fst).zip
        ((ttsTestPairs paths labels).map Prod.snd)).Perm (paths.zip labels)
    rw [hz1, hz2, ttsTrainPairs, ttsTestPairs, ttsPerClass_eq]
    exact hcount.trans (ttsItems_flatten_perm paths labels hlen)
  · intro c hcmem
    have hcc : c ∈ ttsClasses labels := (mem_ttsClasses labels c).mpr hcmem
    obtain ⟨q, hP, hqa, hqb, hqc, hqd⟩ := perSplit_strat paths labels
      (fun c q => (ttsItems paths labels c).length * n_train_of labels.length /
          labels.length ≤ q.1 ∧
        q.1 ≤ (ttsItems paths labels c).length * n_train_of labels.length /
          labels.length + 1)
      _ _ hmaster (ttsClasses_nodup labels) c hcc
    have hic := ttsItems_length_count paths labels hlen c
    refine ⟨q.1, ?_, ?_, ?_, ?_⟩
    · show (((ttsTrainPairs paths labels).map Prod.snd)).count c = q.1
      rw [ttsTrainPairs, ttsPerClass_eq]
      exact hqc
    · rw [← hic]
      exact hP.1
    · rw [← hic]
      exact hP.2
    · show (((ttsTestPairs paths labels).map Prod.snd)).count c = labels.count c - q.1
      rw [ttsTestPairs, ttsPerClass_eq, hqd, hqb, hic]

/-- Claim C5 (amended): whenever sklearn's validation accepts the input —
the call raises no `ValueError` and returns a split `r` — the validation
side of `r` holds `ceil(0.2 * n)` of the `n` samples (sklearn's rounding)
and the train side the rest; the four returned lists pair up so that train
plus validation is a permutation of the input rows — a partition; and the
split is stratified approximately: each class's train count is within one
sample of its exact proportional share, the validation side holding that
class's remainder. Exact per-class proportion equality is impossible in
general (see the counterexample), which is the one part of the original
claim amended. -/
theorem C5_split_amended (paths : List String) (labels : List Nat)
    (r : List String × List String × List Nat × List Nat)
    (hok : sklearn_train_test_split paths labels = Except.ok r) :
    r.2.1.length = (labels.length + 4) / 5 ∧
    r.1.length = labels.length - (labels.length + 4) / 5 ∧
    r.1.length = r.2.2.1.length ∧
    r.2.1.length = r.2.2.2.length ∧
    ((r.1.zip r.2.2.1) ++ (r.2.1.zip r.2.2.2)).Perm (paths.zip labels) ∧
    (∀ c ∈ labels, ∃ ni : Nat,
      r.2.2.1.count c = ni ∧
      labels.count c * (labels.length - (labels.length + 4) / 5) / labels.length ≤ ni ∧
      ni ≤ labels.count c * (labels.length - (labels.length + 4) / 5) / labels.length + 1 ∧
      r.2.2.2.count c = labels.count c - ni) := by
  unfold sklearn_train_test_split at hok
  split_ifs at hok with h1 h2 h3 h4 h5
  have hlen : paths.length = labels.length := not_ne_iff.mp h1
  have hne : labels ≠ [] := by
    intro hnil
    exact h2 (by rw [hlen, hnil]; decide)
  have hr : r = train_test_split paths labels := by
    cases hok
    rfl
  subst hr
  exact train_test_split_spec paths labels hlen hne

/-- Concrete input sklearn's validation accepts: class counts (31, 30, 39)
over 100 samples, so every class has at least two members and the train and
test draws (80 and 20) both exceed the number of classes. -/
def pathsCE : List String := List.replicate 100 "p"

/-- Its labels: 31 samples of class 0, 30 of class 1, 39 of class 2. -/
def labelsCE : List Nat :=
  List.replicate 31 0 ++ List.replicate 30 1 ++ List.replicate 39 2

/-- Counterexample to C5 as stated: at an input the sklearn call accepts
(it returns a split rather than raising), the per-class proportions of the
returned sides do not equal those of the full label list — the 20-sample
validation side holds 6 class-0 samples (6/20 = 0.3) while class 0 is 31
percent of the input, 600 = 6·100 ≠ 31·20 = 620; no 20-sample multiset
could match proportions (0.31, 0.30, 0.39) exactly. -/
theorem C5_split_counterexample :
    ¬ (∀ r, sklearn_train_test_split pathsCE labelsCE = Except.ok r →
      ∀ c : Nat,
        r.2.2.2.count c * labelsCE.length = labelsCE.count c * r.2.2.2.length ∧
        r.2.2.1.count c * labelsCE.length = labelsCE.count c * r.2.2.1.length) :=
  fun h => absurd ((h (train_test_split pathsCE labelsCE) rfl 0).1) (by decide)

/-- Witness for the amended C5 at the same sklearn-accepted input. -/
theorem C5_split_amended_witness :
    (train_test_split pathsCE labelsCE).2.1.length = (labelsCE.length + 4) / 5 ∧
    (train_test_split pathsCE labelsCE).1.length =
      labelsCE.length - (labelsCE.length + 4) / 5 ∧
    (((train_test_split pathsCE labelsCE).1.zip (train_test_split pathsCE labelsCE).2.2.1) ++
      ((train_test_split pathsCE labelsCE).2.1.zip
        (train_test_split pathsCE labelsCE).2.2.2)).Perm (pathsCE.zip labelsCE) ∧
    (∃ ni : Nat, (train_test_split pathsCE labelsCE).2.2.1.count 0 = ni ∧
      labelsCE.count 0 * (labelsCE.length - (labelsCE.length + 4) / 5) / labelsCE.length ≤ ni ∧
      ni ≤ labelsCE.count 0 * (labelsCE.length - (labelsCE.length + 4) / 5) /
        labelsCE.length + 1 ∧
      (train_test_split pathsCE labelsCE).2.2.2.count 0 = labelsCE.count 0 - ni) :=
  have h := C5_split_amended pathsCE labelsCE (train_test_split pathsCE labelsCE) rfl
  ⟨h.1, h.2.1, h.2.2.2.2.1, h.2.2.2.2.2 0 (by decide)⟩

/-- The stages of the script, in the order its top level can reach them. -/
inductive Stage
  | load
  | split
  | spectrogram
  | buildModel
  | trainModel
  | saveModel
deriving DecidableEq, Repr

/-- Environment of one script run: the commands read from
`commands_list.txt`, the filesystem, and the audio decoder (standing for
`tf.audio.decode_wav` plus the channel squeeze). -/
structure Env where
  commands : List String
  fs : FS
  decode : String → List Float

/-- Data built by a run that passed the zero-sample check. -/
structure TrainedRun where
  train_paths : List String
  val_paths : List String
  train_labels : List Nat
  val_labels : List Nat
  train_spectrograms : List (List (List (List Float)))
  val_spectrograms : List (List (List (List Float)))
  num_classes : Nat

/-- Result of a run: the stages executed in order, the files the script
wrote, the fatal error if one was raised, and the successful run's data. -/
structure RunResult where
  stages : List Stage
  written : List String
  fatalError : Option String
  outcome : Option TrainedRun

/-- The module top level of `larq_bnn.py`: load the audio paths, raise
`ValueError` when none was found, otherwise split, convert both sides to
spectrograms, build the binary CNN with `num_classes = len(commands)`,
train, and save the model to the fixed path. -/
def runScript (env : Env) : RunResult :=
  let r := load_audio_files env.fs env.commands DATASET_PATH
  let audio_paths := r.audio_paths
  let labels := r.labels
  if audio_paths.length = 0 then
    { stages := [Stage.load], written := [], fatalError := some noSamplesError,
      outcome := none }
  else
    let s := train_test_split audio_paths labels
    let train_paths := s.1
    let val_paths := s.2.1
    let train_labels := s.2.2.1
    let val_labels := s.2.2.2
    let train_spectrograms := paths_to_spectrograms env.decode train_paths
    let val_spectrograms := paths_to_spectrograms env.decode val_paths
    let num_classes := env.commands.length
    { stages := [Stage.load, Stage.split, Stage.spectrogram, Stage.buildModel,
        Stage.trainModel, Stage.saveModel],
      written := [ MODEL_FILE ],
      fatalError := none,
      outcome := some ⟨train_paths, val_paths, train_labels, val_labels,
        train_spectrograms, val_spectrograms, num_classes⟩ }

/-- Claim C1: when the scan finds zero samples, the script raises the fatal
`ValueError` and executes no splitting, training or saving stage and writes
nothing; when at least one sample is found, no such error is raised. -/
theorem C1_zero_samples_fatal (env : Env) :
    ((load_audio_files env.fs env.commands DATASET_PATH).audio_paths = [] →
      (runScript env).fatalError = some noSamplesError ∧
      (runScript env).stages = [Stage.load] ∧
      Stage.split ∉ (runScript env).stages ∧
      Stage.trainModel ∉ (runScript env).stages ∧
      Stage.saveModel ∉ (runScript env).stages ∧
      (runScript env).written = []) ∧
    ((load_audio_files env.fs env.commands DATASET_PATH).audio_paths ≠ [] →
      (runScript env).fatalError = none) := by
  constructor
  · intro h
    have hlen : (load_audio_files env.fs env.commands DATASET_PATH).audio_paths.length = 0 := by
      rw [h]
      rfl
    simp [runScript, hlen]
  · intro h
    have hlen : ¬ (load_audio_files env.fs env.commands DATASET_PATH).audio_paths.length = 0 := by
      simpa [List.length_eq_zero] using h
    simp [runScript, hlen]

/-- Environment whose filesystem holds no directory at all: zero samples. -/
def envEmpty : Env := ⟨["go"], ⟨fun _ => none⟩, fun _ => []⟩

/-- Environment over `fsWitness`: one `.wav` sample exists. -/
def envOk : Env := ⟨commandsWitness, fsWitness, fun _ => []⟩

/-- Witness for C1 at a zero-sample and a one-sample environment. -/
theorem C1_zero_samples_fatal_witness :
    ((runScript envEmpty).fatalError = some noSamplesError ∧
      (runScript envEmpty).stages = [Stage.load] ∧
      Stage.split ∉ (runScript envEmpty).stages ∧
      Stage.trainModel ∉ (runScript envEmpty).stages ∧
      Stage.saveModel ∉ (runScript envEmpty).stages ∧
      (runScript envEmpty).written = []) ∧
    (runScript envOk).fatalError = none :=
  ⟨(C1_zero_samples_fatal envEmpty).1 (by decide),
   (C1_zero_samples_fatal envOk).2 (by decide)⟩

/-- Counterexample to C3 as stated: the claim puts spectrogram conversion
before the train/validation split, but the script splits the path/label
lists first (line 60) and only then converts each side to spectrograms
(lines 90–91); on a successful concrete run the spectrogram stage does not
precede the split stage. -/
theorem C3_order_counterexample :
    (runScript envOk).fatalError = none ∧
    ¬ ((runScript envOk).stages.indexOf Stage.spectrogram <
        (runScript envOk).stages.indexOf Stage.split) := by
  constructor
  · decide
  · decide

/-- Claim C3 (amended): the pipeline stages run in source order — load the
labeled files, split the path/label lists into train/validation, convert
each side to spectrograms, build the model, train, persist — and a fatal
zero-sample error stops the run right after loading. -/
theorem C3_stage_order (env : Env) :
    ((runScript env).fatalError = none →
      (runScript env).stages = [Stage.load, Stage.split, Stage.spectrogram,
        Stage.buildModel, Stage.trainModel, Stage.saveModel]) ∧
    ((runScript env).fatalError ≠ none → (runScript env).stages = [Stage.load]) := by
  by_cases h : (load_audio_files env.fs env.commands DATASET_PATH).audio_paths.length = 0
  · simp [runScript, h]
  · simp [runScript, h]

/-- Witness for C3 at a successful and a failing environment. -/
theorem C3_stage_order_witness :
    (runScript envOk).stages = [Stage.load, Stage.split, Stage.spectrogram,
      Stage.buildModel, Stage.trainModel, Stage.saveModel] ∧
    (runScript envEmpty).stages = [Stage.load] :=
  ⟨(C3_stage_order envOk).1 (by decide), (C3_stage_order envEmpty).2 (by decide)⟩

/-- Claim C7: a successful run writes exactly one artifact, the serialized
model at the fixed path `binary_kws_model.h5`, and nothing else; a failed
run writes nothing. -/
theorem C7_single_artifact (env : Env) :
    ((runScript env).fatalError = none →
      (runScript env).written = [ MODEL_FILE ] ∧ MODEL_FILE = "binary_kws_model.h5") ∧
    ((runScript env).fatalError ≠ none → (runScript env).written = []) := by
  by_cases h : (load_audio_files env.fs env.commands DATASET_PATH).audio_paths.length = 0
  · simp [runScript, h]
  · simp [runScript, h, MODEL_FILE]

/-- Witness for C7 at a successful and a failing environment. -/
theorem C7_single_artifact_witness :
    ((runScript envOk).written = [ MODEL_FILE ] ∧ MODEL_FILE = "binary_kws_model.h5") ∧
    (runScript envEmpty).written = [] :=
  ⟨(C7_single_artifact envOk).1 (by decide), (C7_single_artifact envEmpty).2 (by decide)⟩

/-- Claim C10: a command's label is its enumeration index, independent of
the other commands' directories — two filesystems agreeing on command i's
directory produce exactly the same label-i pairs, so a missing earlier
directory never compacts later labels — and a successful run's
`num_classes` is `len(commands)` even when some labels never occur. -/
theorem C10_labels_independent (fs1 fs2 : FS) (commands : List String) (dp : String)
    (i : Nat) (hi : i < commands.length)
    (hsame : fs1.listdir (osPathJoin dp (commands.get ⟨i, hi⟩)) =
      fs2.listdir (osPathJoin dp (commands.get ⟨i, hi⟩))) :
    (((load_audio_files fs1 commands dp).audio_paths.zip
        (load_audio_files fs1 commands dp).labels).filter (fun p => p.2 = i) =
      ((load_audio_files fs2 commands dp).audio_paths.zip
        (load_audio_files fs2 commands dp).labels).filter (fun p => p.2 = i)) ∧
    (∀ env : Env, (runScript env).fatalError = none →
      ((runScript env).outcome.map (fun t => t.num_classes)) = some env.commands.length) := by
  constructor
  · rw [load_filter_label fs1 commands dp i hi, load_filter_label fs2 commands dp i hi]
    simp only [commandPairs, hsame]
  · intro env h
    by_cases hlen : (load_audio_files env.fs env.commands DATASET_PATH).audio_paths.length = 0
    · simp [runScript, hlen] at h
    · simp [runScript, hlen]

/-- Filesystem agreeing with `fsWitness` on command `yes` but missing every
other directory. -/
def fsWitnessB : FS :=
  ⟨fun p => if p = "speech-commands/yes" then some ["a.wav", "b.txt"] else none⟩

/-- Witness for C10: `fsWitness` and `fsWitnessB` differ on commands 0 and 1
yet produce the same label-2 pairs, and the successful run on `envOk` has
`num_classes = 3`. -/
theorem C10_labels_independent_witness :
    (((load_audio_files fsWitness commandsWitness DATASET_PATH).audio_paths.zip
        (load_audio_files fsWitness commandsWitness DATASET_PATH).labels).filter
        (fun p => p.2 = 2) =
      ((load_audio_files fsWitnessB commandsWitness DATASET_PATH).audio_paths.zip
        (load_audio_files fsWitnessB commandsWitness DATASET_PATH).labels).filter
        (fun p => p.2 = 2)) ∧
    ((runScript envOk).outcome.map (fun t => t.num_classes)) = some commandsWitness.length :=
  ⟨(C10_labels_independent fsWitness fsWitnessB commandsWitness DATASET_PATH 2 (by decide)
      (by decide)).1,
   (C10_labels_independent fsWitness fsWitnessB commandsWitness DATASET_PATH 2 (by decide)
      (by decide)).2 envOk (by decide)⟩

end BinaryKWS
